import Mathlib

/-!
Shallow embedding of `rss_safew.py`: an RSS-to-bot forwarding script.
Strings are modelled as `List Char`, byte strings as `List Nat`, and the
network (HTTP responses, HTML parse results, bot-API outcomes) as explicit
oracle parameters.  Each definition mirrors the Python function of the same
name; purely I/O plumbing (logging, file handling, JSON encoding) is omitted.
-/

-- ======================= definitions =======================

/-- Model of Python `str.startswith` / `bytes.startswith` with a single
pattern argument: `leadsWith p l` is true iff `p` is a prefix of `l`. -/
def leadsWith {α : Type} [DecidableEq α] : List α → List α → Bool
  | [], _ => true
  | _ :: _, [] => false
  | p :: ps, x :: xs => if p = x then leadsWith ps xs else false

/-- Model of Python `in` on strings (substring test). -/
def containsSeq {α : Type} [DecidableEq α] (pat : List α) : List α → Bool
  | [] => leadsWith pat []
  | c :: rest => leadsWith pat (c :: rest) || containsSeq pat rest

/-- Drop of the input just after the first (leftmost) occurrence of `pat`;
`none` when `pat` does not occur. -/
def afterFirst {α : Type} [DecidableEq α] (pat : List α) : List α → Option (List α)
  | [] => if leadsWith pat [] then some [] else none
  | c :: rest =>
    if leadsWith pat (c :: rest) then some ((c :: rest).drop pat.length)
    else afterFirst pat rest

/-- Model of Python `str.strip()`: remove whitespace from both ends. -/
def stripChars (s : List Char) : List Char :=
  ((s.dropWhile Char.isWhitespace).reverse.dropWhile Char.isWhitespace).reverse

/-- Decimal value of a digit string, as computed by Python `int` on the
digits captured by the regex. -/
def digitsToNat (ds : List Char) : Nat :=
  ds.foldl (fun acc c => 10 * acc + (c.toNat - '0'.toNat)) 0

/-- The literal part of the regex `thread-(\d+)\.htm` before the capture,
i.e. the characters of `"thread-"`. -/
def threadPat : List Char := ['t', 'h', 'r', 'e', 'a', 'd', '-']

/-- The literal part of the regex `thread-(\d+)\.htm` after the capture,
i.e. the characters of `".htm"`. -/
def htmPat : List Char := ['.', 'h', 't', 'm']

/-- One attempt of the regex `thread-(\d+)\.htm` anchored at the start of
`s`: the literal `thread-`, then a maximal nonempty digit run (the greedy
`\d+`; backtracking into the run can never satisfy the following `\.`, so
the maximal run is exact), then the literal `.htm`. -/
def matchTidAt (s : List Char) : Option Nat :=
  if leadsWith threadPat s then
    if ((s.drop threadPat.length).takeWhile Char.isDigit).isEmpty then none
    else if leadsWith htmPat ((s.drop threadPat.length).dropWhile Char.isDigit) then
      some (digitsToNat ((s.drop threadPat.length).takeWhile Char.isDigit))
    else none
  else none

/-- Model of `re.search(r'thread-(\d+)\.htm', url)`: try the pattern at each
position left to right, returning the first (leftmost) match. -/
def searchTid : List Char → Option Nat
  | [] => none
  | c :: cs =>
    match matchTidAt (c :: cs) with
    | some n => some n
    | none => searchTid cs

/-- Embedding of `extract_tid_from_url` (src/rss_safew.py, lines 140-146):
`re.search` for `thread-(\d+)\.htm`, returning `int(group(1))` on a match
and `None` otherwise. -/
def extract_tid_from_url (url : List Char) : Option Nat := searchTid url

/-- Declarative counterpart of the regex search used by `extract_tid_from_url`:
the URL contains `thread-`, a nonempty digit run, then `.htm`, somewhere. -/
def HasThreadPat (url : List Char) : Prop :=
  ∃ pre ds suf, url = pre ++ threadPat ++ ds ++ htmPat ++ suf ∧
    ds ≠ [] ∧ ds.all Char.isDigit = true

/-- Model of `re.sub(r'<[^>]+>', '', desc)`: delete every occurrence of `<`,
one or more non-`>` characters, then `>`, scanning left to right.  The fuel
argument (initialised to the string length, which every scan step consumes
at least one character of) makes the recursion structural. -/
def stripHtmlTagsAux : Nat → List Char → List Char
  | 0, s => s
  | _ + 1, [] => []
  | fuel + 1, c :: rest =>
    if c = '<' ∧ 0 < (rest.takeWhile (fun x => x != '>')).length ∧
        (rest.takeWhile (fun x => x != '>')).length < rest.length then
      stripHtmlTagsAux fuel (rest.drop ((rest.takeWhile (fun x => x != '>')).length + 1))
    else c :: stripHtmlTagsAux fuel rest

/-- Removal of HTML tags from a description, as done on line 171 of the
source (`re.sub(r'<[^>]+>', '', desc)`). -/
def stripHtmlTags (s : List Char) : List Char := stripHtmlTagsAux s.length s

/-- An RSS feed entry as consumed by `fetch_updates`: the fields the script
reads via `entry.get(...)`, each `none` when the key is absent.
`dc_creator_nested` stands for `entry.get("dc", {}).get("creator")`. -/
structure FeedEntry where
  link : List Char
  title : Option (List Char)
  author : Option (List Char)
  dc_author : Option (List Char)
  dc_creator_nested : Option (List Char)
  dc_creator : Option (List Char)
  creator : Option (List Char)
  description : Option (List Char)
  deriving DecidableEq

/-- The fields `fetch_updates` attaches to an accepted entry (`tid`,
`rss_title`, `rss_author`, `rss_description`) together with the original
`link`, which is what `push_new_posts` later reads. -/
structure NewPost where
  tid : Nat
  link : List Char
  rss_title : List Char
  rss_author : List Char
  rss_description : List Char
  deriving DecidableEq

/-- Characters of the default title `"无标题"`. -/
def defaultTitle : List Char := "无标题".toList

/-- Characters of the default author `"未知用户"`. -/
def defaultAuthor : List Char := "未知用户".toList

/-- Characters of the default description `"无描述"`. -/
def defaultDesc : List Char := "无描述".toList

/-- Python `a or b` on optional strings: `a` when it is a non-empty string,
otherwise `b`. -/
def pyOr (a b : Option (List Char)) : Option (List Char) :=
  match a with
  | some s => if s.isEmpty then b else some s
  | none => b

/-- The author fallback chain of `fetch_updates` (source lines 167-169):
`entry.get("author") or entry.get("dc_author") or entry.get("dc", {}).get("creator")
or entry.get("dc_creator") or entry.get("creator")`, then stripped, with
`"未知用户"` when the result is missing or whitespace-only. -/
def pick_author (e : FeedEntry) : List Char :=
  match pyOr e.author (pyOr e.dc_author (pyOr e.dc_creator_nested
      (pyOr e.dc_creator e.creator))) with
  | some s => if (stripChars s).isEmpty then defaultAuthor else stripChars s
  | none => defaultAuthor

/-- Continuation of the per-entry filter of `fetch_updates` after TID
extraction.  Note the Python test `if not tid: continue` also skips
`tid == 0` (falsy), hence the explicit `tid = 0` case. -/
def processTid (sent pending : List Nat) (e : FeedEntry) : Option Nat → Option NewPost
  | none => none
  | some tid =>
    if tid = 0 then none
    else if tid ∈ sent ∨ tid ∈ pending then none
    else some ⟨tid, e.link, stripChars (e.title.getD defaultTitle), pick_author e,
      stripHtmlTags (stripChars (e.description.getD defaultDesc))⟩

/-- The per-entry body of the `fetch_updates` loop (source lines 157-173):
skip entries with an empty (stripped) link, extract the TID, and keep the
entry only when the TID is truthy and in neither persisted set. -/
def processEntry (sent pending : List Nat) (e : FeedEntry) : Option NewPost :=
  if (stripChars e.link).isEmpty then none
  else processTid sent pending e (extract_tid_from_url (stripChars e.link))

/-- The sort key relation used by `sorted(valid_entries, key=lambda x: x["tid"])`. -/
def tidLE (a b : NewPost) : Prop := a.tid ≤ b.tid

instance : DecidableRel tidLE := fun a b => Nat.decLe a.tid b.tid

instance : IsTotal NewPost tidLE := ⟨fun a b => Nat.le_total a.tid b.tid⟩

instance : IsTrans NewPost tidLE := ⟨fun _ _ _ h1 h2 => Nat.le_trans h1 h2⟩

/-- Embedding of `fetch_updates` (source lines 148-179).  The parsed feed is
an oracle input: `bozo` models `feed.bozo` (parse failure, returning `None`)
and `entries` models `feed.entries`.  On success the accepted entries are
returned sorted by TID. -/
def fetch_updates (bozo : Bool) (entries : List FeedEntry)
    (sent pending : List Nat) : Option (List NewPost) :=
  if bozo then none
  else some (List.insertionSort tidLE (entries.filterMap (processEntry sent pending)))

/-- Embedding of `save_sent_tids` (source lines 67-74): the persisted list is
`sorted(list(set(existing_tids + new_tids)))`. -/
def save_sent_tids (new_tids existing_tids : List Nat) : List Nat :=
  List.insertionSort (fun a b => a ≤ b) ((existing_tids ++ new_tids).dedup)

/-- `MAX_PUSH_PER_RUN` (source line 18). -/
def MAX_PUSH_PER_RUN : Nat := 5

/-- `MAX_IMAGES_PER_MSG` (source line 21). -/
def MAX_IMAGES_PER_MSG : Nat := 10

/-- The list of brand-new entries that `check_for_updates` (source lines
513-520) hands to `push_new_posts`: nothing when the fetch failed or found
nothing (`if new_entries:`), else `new_entries[:MAX_PUSH_PER_RUN]`. -/
def check_for_updates_push_list (bozo : Bool) (entries : List FeedEntry)
    (sent pending : List Nat) : List NewPost :=
  match fetch_updates bozo entries sent pending with
  | none => []
  | some new_entries =>
    if new_entries.isEmpty then [] else new_entries.take MAX_PUSH_PER_RUN

/-- Entry used by the C1 witness. -/
def c1Entry : FeedEntry :=
  ⟨"https://tyw29.cc/thread-7.htm".toList, none, none, none, none, none, none, none⟩

/-- Post produced by `fetch_updates` from `c1Entry`. -/
def c1Post : NewPost :=
  ⟨7, "https://tyw29.cc/thread-7.htm".toList, defaultTitle, defaultAuthor, defaultDesc⟩

/-- Entry with TID 9 used by the C6 witness. -/
def c6Entry9 : FeedEntry := ⟨"thread-9.htm".toList, none, none, none, none, none, none, none⟩

/-- Entry with TID 3 used by the C6 witness. -/
def c6Entry3 : FeedEntry := ⟨"thread-3.htm".toList, none, none, none, none, none, none, none⟩

/-- Post with TID 3 produced from `c6Entry3`. -/
def c6Post3 : NewPost := ⟨3, "thread-3.htm".toList, defaultTitle, defaultAuthor, defaultDesc⟩

/-- Post with TID 9 produced from `c6Entry9`. -/
def c6Post9 : NewPost := ⟨9, "thread-9.htm".toList, defaultTitle, defaultAuthor, defaultDesc⟩

/-- An `<img>` tag as seen by the scraper: its `data-src` and `src`
attributes, `none` when absent. -/
structure ImgTag where
  data_src : Option (List Char)
  src : Option (List Char)
  deriving DecidableEq

/-- A fetched post page, as the oracle for the HTTP response and the
BeautifulSoup views the script takes of it: the status code, the raw page
text, the texts of the `h4` tags whose class matches `card-title`, and the
`img` tags of the `div.message.break-all` elements (those with
`isfirst="1"` and all of them, respectively). -/
structure Page where
  statusCode : Nat
  html : List Char
  h4Texts : List (List Char)
  firstDivImgs : List (List ImgTag)
  allDivImgs : List (List ImgTag)
  deriving DecidableEq

/-- Characters of the banner prefix `"本帖正在审核中"`. -/
def bannerHead : List Char := "本帖正在审核中".toList

/-- Characters of the banner suffix `"您无权查看"`. -/
def bannerTail : List Char := "您无权查看".toList

/-- Model of `audit_pattern.search(text)` for the DOTALL regex
`本帖正在审核中.*您无权查看`: the head occurs, and the tail occurs somewhere
after the first occurrence of the head (a match after a later occurrence of
the head is also a match after the first one). -/
def audit_search (s : List Char) : Bool :=
  match afterFirst bannerHead s with
  | some rest => containsSeq bannerTail rest
  | none => false

/-- The moderation test of `get_post_status` (source lines 200-207): some
`h4.card-title` text matches the banner regex, or the raw page text does. -/
def page_matches_audit (page : Page) : Bool :=
  page.h4Texts.any (fun t => audit_search t) || audit_search page.html

/-- Characters of `"http"`. -/
def httpPat : List Char := ['h', 't', 't', 'p']

/-- Characters of `"https"`. -/
def httpsPat : List Char := ['h', 't', 't', 'p', 's']

/-- Characters of `"data:image/"`. -/
def dataImgPat : List Char := "data:image/".toList

/-- Characters of `"javascript:"`. -/
def jsPat : List Char := "javascript:".toList

/-- `"/".join(webpage_url.split("/")[:3])` (source line 219). -/
def base_domain_of (url : List Char) : List Char :=
  List.intercalate ['/'] ((url.splitOn '/').take 3)

/-- `img.get("data-src", "").strip() or img.get("src", "").strip()`
(source line 222). -/
def img_raw_url (img : ImgTag) : List Char :=
  if (stripChars (img.data_src.getD [])).isEmpty then stripChars (img.src.getD [])
  else stripChars (img.data_src.getD [])

/-- One iteration of the image-collection loop of `get_post_status`
(source lines 221-230): skip empty, `data:image/` and `javascript:` URLs,
resolve relative URLs against the base domain, and append the result when it
is new and starts with `http`/`https`. -/
def add_img (base : List Char) (images : List (List Char)) (img : ImgTag) :
    List (List Char) :=
  if (img_raw_url img).isEmpty || leadsWith dataImgPat (img_raw_url img) ||
      leadsWith jsPat (img_raw_url img) then
    images
  else
    let u :=
      if leadsWith ['/'] (img_raw_url img) then base ++ img_raw_url img
      else if !(leadsWith httpPat (img_raw_url img) || leadsWith httpsPat (img_raw_url img)) then
        base ++ '/' :: img_raw_url img
      else img_raw_url img
    if u ∉ images ∧ (leadsWith httpPat u = true ∨ leadsWith httpsPat u = true) then
      images ++ [u]
    else images

/-- Embedding of `get_post_status` (source lines 182-237): on a non-200
response return no images and a false pending flag with the status code; on
a banner match return no images and a true pending flag; otherwise collect
the images of the first-message divs (falling back to all message divs),
keeping the first `MAX_IMAGES_PER_MSG` of them. -/
def get_post_status (webpage_url : List Char) (page : Page) :
    List (List Char) × Bool × Nat :=
  if page.statusCode ≠ 200 then ([], false, page.statusCode)
  else if page_matches_audit page then ([], true, page.statusCode)
  else
    let target_divs :=
      if page.firstDivImgs.isEmpty then page.allDivImgs else page.firstDivImgs
    if target_divs.isEmpty then ([], false, page.statusCode)
    else
      ((target_divs.flatten.foldl (add_img (base_domain_of webpage_url)) []).take
        MAX_IMAGES_PER_MSG, false, page.statusCode)

/-- Page used by the C9 witness: status 200, no banner, one first-message
div containing a relative, an absolute and a duplicate image URL. -/
def c9Page : Page :=
  ⟨200, [], [],
    [[⟨some "/img/a.png".toList, none⟩, ⟨none, some "https://cdn.example/b.jpg".toList⟩,
      ⟨some "/img/a.png".toList, none⟩]], []⟩

/-- Page used by the C7 witness: status 200 with the banner in the raw text. -/
def c7Page : Page := ⟨200, bannerHead ++ bannerTail, [], [], []⟩

/-- JPEG magic bytes `ff d8 ff`. -/
def sigJPEG : List Nat := [0xff, 0xd8, 0xff]

/-- PNG magic bytes `89 50 4e 47`. -/
def sigPNG : List Nat := [0x89, 0x50, 0x4e, 0x47]

/-- GIF magic bytes `47 49 46 38`. -/
def sigGIF : List Nat := [0x47, 0x49, 0x46, 0x38]

/-- RIFF magic bytes `52 49 46 46` (webp container). -/
def sigRIFF : List Nat := [0x52, 0x49, 0x46, 0x46]

/-- Embedding of `is_valid_image` (source lines 42-50): false on empty data,
else true exactly when the data starts with one of the four signatures. -/
def is_valid_image (data : List Nat) : Bool :=
  if data.isEmpty then false
  else leadsWith sigJPEG data || leadsWith sigPNG data || leadsWith sigGIF data ||
    leadsWith sigRIFF data

/-- Embedding of `send_single_photo` (source lines 268-304).  The downloaded
image bytes are passed in (the download itself is network I/O), and `postOk`
is the oracle for the bot API accepting the upload.  The result records
whether a request was posted to the bot API at all and whether the send
succeeded: on an invalid image the function returns `False` before posting
anything. -/
def send_single_photo (img_data : List Nat) (postOk : Bool) : Bool × Bool :=
  if is_valid_image img_data = false then (false, false) else (true, postOk)

/-- Embedding of `send_media_group` (source lines 306-360), with the same
conventions as `send_single_photo`: `img_datas` are the downloaded bytes of
the requested image URLs in order.  Fewer than 2 or more than
`MAX_IMAGES_PER_MSG` images, or any invalid downloaded image, yield `False`
without posting anything. -/
def send_media_group (img_datas : List (List Nat)) (postOk : Bool) : Bool × Bool :=
  if img_datas.length < 2 ∨ img_datas.length > MAX_IMAGES_PER_MSG then (false, false)
  else if img_datas.all is_valid_image then (true, postOk) else (false, false)

/-- The three bot-API delivery methods. -/
inductive SendMethod where
  | sendPhoto
  | sendMediaGroup
  | sendMessage
  deriving DecidableEq

/-- The delivery choice made identically in `push_new_posts` (source lines
494-500) and `check_pending_data` (source lines 424-430):
`if len(images) == 1` use `send_single_photo`, `elif 2 <= len(images) <=
MAX_IMAGES_PER_MSG` use `send_media_group`, `else` use `send_text_msg`. -/
def dispatch (images : List (List Char)) : SendMethod :=
  if images.length = 1 then SendMethod.sendPhoto
  else if 2 ≤ images.length ∧ images.length ≤ MAX_IMAGES_PER_MSG then
    SendMethod.sendMediaGroup
  else SendMethod.sendMessage

/-- The bot-API outcome oracle for one post: whether `send_single_photo`,
`send_media_group`, and `send_text_msg` respectively would succeed for it
(download validity, guard checks and HTTP outcome folded together). -/
structure SendOracle where
  photo : Bool
  media : Bool
  text : Bool
  deriving DecidableEq

/-- The send actually performed for a post with the given image list, via
the shared delivery choice `dispatch`, returning the success flag the loops
store in `success`. -/
def run_send (images : List (List Char)) (o : SendOracle) : Bool :=
  match dispatch images with
  | SendMethod.sendPhoto => o.photo
  | SendMethod.sendMediaGroup => o.media
  | SendMethod.sendMessage => o.text

/-- One record of the pending-moderation file, as produced by
`load_pending_data`. -/
structure PendingItem where
  tid : Nat
  title : List Char
  author : List Char
  description : List Char
  deriving DecidableEq

/-- `FIXED_PROJECT_URL` (source line 19). -/
def FIXED_PROJECT_URL : List Char := "https://tyw29.cc/".toList

/-- The link `check_pending_data` rebuilds for a pending TID
(`f"{FIXED_PROJECT_URL}thread-{tid}.htm"`, source line 397). -/
def pending_link (tid : Nat) : List Char :=
  FIXED_PROJECT_URL ++ threadPat ++ (Nat.repr tid).toList ++ htmPat

/-- The `get_post_status` result `check_pending_data` observes for a pending
TID, with the page oracle `pageOf` supplying the fetched page. -/
def pending_status (pageOf : Nat → Page) (tid : Nat) : List (List Char) × Bool × Nat :=
  get_post_status (pending_link tid) (pageOf tid)

/-- The three destinations of a pending entry in one run. -/
inductive PendingBranch where
  | dropped
  | sentOut
  | retained
  deriving DecidableEq

/-- The decision chain of the `check_pending_data` loop body (source lines
400-438): drop on 404, retain on any other non-200 status, retain while
still pending, send and record on success, retain on failure. -/
def pending_branch (pageOf : Nat → Page) (sendOf : Nat → SendOracle)
    (tid : Nat) : PendingBranch :=
  if (pending_status pageOf tid).2.2 = 404 then PendingBranch.dropped
  else if (pending_status pageOf tid).2.2 ≠ 200 then PendingBranch.retained
  else if (pending_status pageOf tid).2.1 = true then PendingBranch.retained
  else if run_send (pending_status pageOf tid).1 (sendOf tid) = true then
    PendingBranch.sentOut
  else PendingBranch.retained

/-- The loop of `check_pending_data` over the pending records, accumulating
`passed_tids`, `still_pending` and `deleted_tids` in order. -/
def check_pending_loop (pageOf : Nat → Page) (sendOf : Nat → SendOracle) :
    List PendingItem → List Nat × List PendingItem × List Nat
  | [] => ([], [], [])
  | item :: rest =>
    let r := check_pending_loop pageOf sendOf rest
    match pending_branch pageOf sendOf item.tid with
    | PendingBranch.dropped => (r.1, r.2.1, item.tid :: r.2.2)
    | PendingBranch.sentOut => (item.tid :: r.1, r.2.1, r.2.2)
    | PendingBranch.retained => (r.1, item :: r.2.1, r.2.2)

/-- The observable outcome of one `check_pending_data` run (source lines
383-443): the TIDs pushed this run, the records kept as still pending (the
list handed to `save_pending_data`, which persists them sorted and
deduplicated by TID, so it carries exactly the TIDs kept pending), the TIDs
dropped as deleted, and the sent-set file contents after the run. -/
structure PendingRunResult where
  passed : List Nat
  still : List PendingItem
  deleted : List Nat
  sentFile : List Nat
  deriving DecidableEq

/-- Embedding of `check_pending_data`: an empty pending file short-circuits;
otherwise the loop runs, the remaining pending records are saved, and — when
anything passed — the passed TIDs (already appended to the in-memory
`sent_tids`) are merged into the sent-set file via `save_sent_tids`. -/
def check_pending_data (pageOf : Nat → Page) (sendOf : Nat → SendOracle)
    (pending : List PendingItem) (sent0 : List Nat) : PendingRunResult :=
  if pending.isEmpty then ⟨[], [], [], sent0⟩
  else
    let r := check_pending_loop pageOf sendOf pending
    ⟨r.1, r.2.1, r.2.2,
      if r.1.isEmpty then sent0 else save_sent_tids r.1 (sent0 ++ r.1)⟩

/-- Page oracle for the C3 witness: every fetch returns 404. -/
def c3PageOf : Nat → Page := fun _ => ⟨404, [], [], [], []⟩

/-- Send oracle for the C3 witness: every send fails. -/
def c3SendOf : Nat → SendOracle := fun _ => ⟨false, false, false⟩

/-- Pending record for the C3 witness. -/
def c3Item : PendingItem := ⟨5, [], [], []⟩

-- ======================= theorems =======================

theorem leadsWith_iff {α : Type} [DecidableEq α] (p l : List α) :
    leadsWith p l = true ↔ ∃ t, l = p ++ t := by
  induction p generalizing l with
  | nil => simp [leadsWith]
  | cons a as ih =>
    cases l with
    | nil => simp [leadsWith]
    | cons b bs =>
      by_cases hab : a = b
      · subst hab
        simp [leadsWith, ih]
      · constructor
        · intro h
          simp [leadsWith, hab] at h
        · rintro ⟨t, ht⟩
          rw [List.cons_append] at ht
          injection ht with h1 _
          exact absurd h1.symm hab

theorem takeWhile_of_sandwich (p : Char → Bool) (ds : List Char) (c : Char)
    (t : List Char) (h1 : ds.all p = true) (h2 : p c = false) :
    (ds ++ c :: t).takeWhile p = ds ∧ (ds ++ c :: t).dropWhile p = c :: t := by
  induction ds with
  | nil => simp [List.takeWhile_cons, List.dropWhile_cons, h2]
  | cons d ds ih =>
    simp only [List.all_cons, Bool.and_eq_true] at h1
    have hrec := ih h1.2
    simp [List.takeWhile_cons, List.dropWhile_cons, h1.1, hrec.1, hrec.2]

theorem matchTidAt_eq (t : List Char) :
    matchTidAt (threadPat ++ t) =
      (if (t.takeWhile Char.isDigit).isEmpty then none
       else if leadsWith htmPat (t.dropWhile Char.isDigit) then
         some (digitsToNat (t.takeWhile Char.isDigit))
       else none) := by
  unfold matchTidAt
  rw [if_pos (( leadsWith_iff threadPat (threadPat ++ t)).mpr ⟨t, rfl⟩), List.drop_left]

theorem matchTidAt_none_of_head (s : List Char) (h : leadsWith threadPat s = false) :
    matchTidAt s = none := by
  unfold matchTidAt
  rw [if_neg]
  simp [h]

theorem matchTidAt_some_iff (s : List Char) (n : Nat) :
    matchTidAt s = some n ↔
      ∃ ds suf, s = threadPat ++ ds ++ htmPat ++ suf ∧ ds ≠ [] ∧
        ds.all Char.isDigit = true ∧ n = digitsToNat ds := by
  constructor
  · intro h
    by_cases hlw : leadsWith threadPat s = true
    · rcases ( leadsWith_iff _ _).mp hlw with ⟨t, ht⟩
      subst ht
      rw [matchTidAt_eq] at h
      by_cases hds : (t.takeWhile Char.isDigit).isEmpty = true
      · simp [hds] at h
      · rw [Bool.not_eq_true] at hds
        by_cases hhtm : leadsWith htmPat (t.dropWhile Char.isDigit) = true
        · simp only [hds, hhtm, Bool.false_eq_true, if_false, if_true,
            Option.some_inj] at h
          rcases ( leadsWith_iff _ _).mp hhtm with ⟨suf, hsuf⟩
          refine ⟨t.takeWhile Char.isDigit, suf, ?_, ?_, List.all_takeWhile, h.symm⟩
          · have hsplit := List.takeWhile_append_dropWhile Char.isDigit t
            rw [hsuf] at hsplit
            conv_lhs => rw [← hsplit]
            simp [List.append_assoc]
          · intro hnil
            rw [hnil] at hds
            simp at hds
        · rw [Bool.not_eq_true] at hhtm
          simp [hds, hhtm] at h
    · rw [Bool.not_eq_true] at hlw
      rw [matchTidAt_none_of_head s hlw] at h
      cases h
  · rintro ⟨ds, suf, heq, hne, hall, hn⟩
    subst heq
    have hshape : threadPat ++ ds ++ htmPat ++ suf =
        threadPat ++ (ds ++ ('.' :: ('h' :: 't' :: 'm' :: suf))) := by
      simp [htmPat, List.append_assoc]
    rw [hshape, matchTidAt_eq]
    have hsand := takeWhile_of_sandwich Char.isDigit ds '.'
      ('h' :: 't' :: 'm' :: suf) hall (by decide)
    rw [hsand.1, hsand.2]
    have hlw2 : leadsWith htmPat ('.' :: ('h' :: 't' :: 'm' :: suf)) = true :=
      ( leadsWith_iff _ _).mpr ⟨suf, by simp [htmPat]⟩
    have hne2 : ds.isEmpty = false := by
      cases ds with
      | nil => exact absurd rfl hne
      | cons a l => rfl
    simp [hne2, hlw2, hn]

theorem searchTid_some_decomp (s : List Char) (n : Nat) (h : searchTid s = some n) :
    ∃ pre rest, s = pre ++ rest ∧ matchTidAt rest = some n := by
  induction s with
  | nil => simp [searchTid] at h
  | cons c cs ih =>
    simp only [searchTid] at h
    cases hm : matchTidAt (c :: cs) with
    | some m =>
      rw [hm] at h
      simp only [Option.some_inj] at h
      exact ⟨[], c :: cs, rfl, by rw [hm, h]⟩
    | none =>
      rw [hm] at h
      simp only [] at h
      rcases ih h with ⟨pre, rest, heq, hmatch⟩
      exact ⟨c :: pre, rest, by rw [List.cons_append, heq], hmatch⟩

theorem searchTid_none_decomp (s : List Char) (h : searchTid s = none) :
    ∀ pre rest, s = pre ++ rest → matchTidAt rest = none := by
  induction s with
  | nil =>
    intro pre rest heq
    have hr : rest = [] := (List.append_eq_nil.mp heq.symm).2
    rw [hr]
    decide
  | cons c cs ih =>
    simp only [searchTid] at h
    cases hm : matchTidAt (c :: cs) with
    | some m => rw [hm] at h; cases h
    | none =>
      rw [hm] at h
      simp only [] at h
      intro pre rest heq
      cases pre with
      | nil =>
        simp only [List.nil_append] at heq
        rw [← heq]
        exact hm
      | cons p ps =>
        rw [List.cons_append] at heq
        injection heq with h1 h2
        exact ih h ps rest h2

example : extract_tid_from_url "https://tyw29.cc/thread-12345.htm".toList = some 12345 := by
  decide

example : extract_tid_from_url "https://tyw29.cc/forum-1.htm".toList = none := by
  decide

/-- C5: `extract_tid_from_url` returns the integer value of the digits
captured by the URL pattern `thread-(digits).htm` whenever the input URL
contains that pattern (the returned value is the decimal value of the digit
run of an actual occurrence of the pattern in the URL), and returns `None`
for every URL that does not contain the pattern. -/
theorem extract_tid_from_url_spec (url : List Char) :
    (extract_tid_from_url url = none ↔ ¬ HasThreadPat url) ∧
    (∀ n, extract_tid_from_url url = some n →
      ∃ pre ds suf, url = pre ++ threadPat ++ ds ++ htmPat ++ suf ∧ ds ≠ [] ∧
        ds.all Char.isDigit = true ∧ n = digitsToNat ds) := by
  constructor
  · constructor
    · intro h hpat
      rcases hpat with ⟨pre, ds, suf, heq, hne, hall⟩
      have hm : matchTidAt (threadPat ++ (ds ++ (htmPat ++ suf))) = some (digitsToNat ds) :=
        (matchTidAt_some_iff _ _).mpr ⟨ds, suf, by simp [List.append_assoc], hne, hall, rfl⟩
      have hnone := searchTid_none_decomp url h pre (threadPat ++ (ds ++ (htmPat ++ suf)))
        (by rw [heq]; simp [List.append_assoc])
      rw [hnone] at hm
      cases hm
    · intro hnot
      cases hopt : extract_tid_from_url url with
      | none => rfl
      | some n =>
        rcases searchTid_some_decomp url n hopt with ⟨pre, rest, heq, hm⟩
        rcases (matchTidAt_some_iff _ _).mp hm with ⟨ds, suf, hrest, hne, hall, _⟩
        refine absurd ⟨pre, ds, suf, ?_, hne, hall⟩ hnot
        rw [heq, hrest]
        simp [List.append_assoc]
  · intro n h
    rcases searchTid_some_decomp url n h with ⟨pre, rest, heq, hm⟩
    rcases (matchTidAt_some_iff _ _).mp hm with ⟨ds, suf, hrest, hne, hall, hn⟩
    refine ⟨pre, ds, suf, ?_, hne, hall, hn⟩
    rw [heq, hrest]
    simp [List.append_assoc]

/-- Witness for C5 at a concrete URL: the theorem applied to
`https://tyw29.cc/thread-12345.htm`, whose extracted TID is `12345`. -/
theorem extract_tid_from_url_spec_witness :
    ∃ pre ds suf, "https://tyw29.cc/thread-12345.htm".toList =
        pre ++ threadPat ++ ds ++ htmPat ++ suf ∧ ds ≠ [] ∧
        ds.all Char.isDigit = true ∧ 12345 = digitsToNat ds :=
  (extract_tid_from_url_spec "https://tyw29.cc/thread-12345.htm".toList).2 12345 (by decide)

theorem mem_save_sent_tids (new_tids existing_tids : List Nat) (t : Nat) :
    t ∈ save_sent_tids new_tids existing_tids ↔
      (t ∈ existing_tids ∨ t ∈ new_tids) := by
  unfold save_sent_tids
  rw [List.Perm.mem_iff (List.perm_insertionSort _ _), List.mem_dedup, List.mem_append]

/-- C2: `save_sent_tids` persists exactly the duplicate-free sorted union of
the existing TIDs and the new TIDs: the result is sorted, has no duplicates,
and contains a TID exactly when it was in one of the two input lists — in
particular every existing TID is still present. -/
theorem save_sent_tids_spec (new_tids existing_tids : List Nat) :
    List.Sorted (fun a b => a ≤ b) (save_sent_tids new_tids existing_tids) ∧
    (save_sent_tids new_tids existing_tids).Nodup ∧
    ∀ t, t ∈ save_sent_tids new_tids existing_tids ↔
      (t ∈ existing_tids ∨ t ∈ new_tids) := by
  refine ⟨List.sorted_insertionSort _ _, ?_, mem_save_sent_tids new_tids existing_tids⟩
  exact (List.Perm.nodup_iff (List.perm_insertionSort _ _)).mpr (List.nodup_dedup _)

theorem processEntry_some (sent pending : List Nat) (e : FeedEntry) (p : NewPost)
    (h : processEntry sent pending e = some p) :
    stripChars e.link ≠ [] ∧
      extract_tid_from_url (stripChars e.link) = some p.tid ∧
      p.tid ∉ sent ∧ p.tid ∉ pending := by
  unfold processEntry at h
  by_cases h1 : (stripChars e.link).isEmpty = true
  · simp [h1] at h
  · rw [Bool.not_eq_true] at h1
    simp only [h1, Bool.false_eq_true, if_false] at h
    have h1n : stripChars e.link ≠ [] := by
      intro hnil
      rw [hnil] at h1
      simp at h1
    cases hext : extract_tid_from_url (stripChars e.link) with
    | none =>
      rw [hext] at h
      simp [processTid] at h
    | some tid =>
      rw [hext] at h
      by_cases h2 : tid = 0
      · simp [processTid, h2] at h
      · by_cases h3 : tid ∈ sent ∨ tid ∈ pending
        · simp [processTid, h2, h3] at h
        · simp only [processTid, h2, h3, if_false, Option.some_inj] at h
          push_neg at h3
          subst h
          exact ⟨h1n, rfl, h3.1, h3.2⟩

/-- C1: every post in the list returned by a successful `fetch_updates` run
comes from a feed entry whose stripped link is non-empty and yields a TID
that is in neither the sent-set nor the pending-set; entries whose TID is in
either set are never included. -/
theorem fetch_updates_only_new (bozo : Bool) (entries : List FeedEntry)
    (sent pending : List Nat) (l : List NewPost) (p : NewPost)
    (hl : fetch_updates bozo entries sent pending = some l) (hp : p ∈ l) :
    ∃ e ∈ entries, stripChars e.link ≠ [] ∧
      extract_tid_from_url (stripChars e.link) = some p.tid ∧
      p.tid ∉ sent ∧ p.tid ∉ pending := by
  by_cases hb : bozo = true
  · simp [fetch_updates, hb] at hl
  · rw [Bool.not_eq_true] at hb
    simp only [fetch_updates, hb, Bool.false_eq_true, if_false, Option.some_inj] at hl
    subst hl
    have hmem : p ∈ entries.filterMap (processEntry sent pending) :=
      (List.Perm.mem_iff (List.perm_insertionSort tidLE _)).mp hp
    rcases List.mem_filterMap.mp hmem with ⟨e, he, hpe⟩
    exact ⟨e, he, processEntry_some sent pending e p hpe⟩

/-- Witness for C1: the theorem applied to a concrete one-entry feed with
empty sent- and pending-sets. -/
theorem fetch_updates_only_new_witness :
    ∃ e ∈ [c1Entry], stripChars e.link ≠ [] ∧
      extract_tid_from_url (stripChars e.link) = some c1Post.tid ∧
      c1Post.tid ∉ ([] : List Nat) ∧ c1Post.tid ∉ ([] : List Nat) :=
  fetch_updates_only_new false [c1Entry] [] [] [c1Post] c1Post (by decide) (by decide)

/-- C6: the list returned by a successful `fetch_updates` run is sorted in
ascending TID order: each adjacent pair satisfies `tidLE`, i.e. the first
entry's TID is at most the second's. -/
theorem fetch_updates_sorted (bozo : Bool) (entries : List FeedEntry)
    (sent pending : List Nat) (l : List NewPost)
    (hl : fetch_updates bozo entries sent pending = some l) :
    List.Chain' tidLE l := by
  by_cases hb : bozo = true
  · simp [fetch_updates, hb] at hl
  · rw [Bool.not_eq_true] at hb
    simp only [fetch_updates, hb, Bool.false_eq_true, if_false, Option.some_inj] at hl
    subst hl
    exact List.Pairwise.chain' (List.sorted_insertionSort tidLE _)

/-- Witness for C6: the theorem applied to a concrete feed whose entries
arrive in descending TID order; the returned list is ascending. -/
theorem fetch_updates_sorted_witness : List.Chain' tidLE [c6Post3, c6Post9] :=
  fetch_updates_sorted false [c6Entry9, c6Entry3] [] [] [c6Post3, c6Post9] (by decide)

/-- C10: a single run forwards at most `MAX_PUSH_PER_RUN = 5` brand-new
posts: the list `check_for_updates` passes to `push_new_posts` has length at
most 5 and equals the first `MAX_PUSH_PER_RUN` entries of the fetched
new-entry list whenever the fetch succeeded. -/
theorem check_for_updates_push_spec (bozo : Bool) (entries : List FeedEntry)
    (sent pending : List Nat) :
    MAX_PUSH_PER_RUN = 5 ∧
    (check_for_updates_push_list bozo entries sent pending).length ≤ MAX_PUSH_PER_RUN ∧
    ∀ l, fetch_updates bozo entries sent pending = some l →
      check_for_updates_push_list bozo entries sent pending = l.take MAX_PUSH_PER_RUN := by
  refine ⟨rfl, ?_, ?_⟩
  · unfold check_for_updates_push_list
    cases fetch_updates bozo entries sent pending with
    | none => simp
    | some l =>
      by_cases h : l.isEmpty = true
      · simp [h]
      · rw [Bool.not_eq_true] at h
        simp only [h, Bool.false_eq_true, if_false]
        exact List.length_take_le _ _
  · intro l hl
    unfold check_for_updates_push_list
    rw [hl]
    by_cases h : l.isEmpty = true
    · rw [List.isEmpty_iff] at h
      subst h
      simp
    · rw [Bool.not_eq_true] at h
      simp [h]

/-- Witness for C10: the theorem applied to a concrete empty feed, whose
fetch succeeds with an empty list. -/
theorem check_for_updates_push_spec_witness :
    check_for_updates_push_list false [] [] [] = ([] : List NewPost).take MAX_PUSH_PER_RUN :=
  (check_for_updates_push_spec false [] [] []).2.2 [] (by decide)

theorem leadsWith_https_http (u : List Char) (h : leadsWith httpsPat u = true) :
    leadsWith httpPat u = true := by
  rcases ( leadsWith_iff _ _).mp h with ⟨t, ht⟩
  refine ( leadsWith_iff _ _).mpr ⟨'s' :: t, ?_⟩
  rw [ht]
  rfl

theorem add_img_cases (base : List Char) (images : List (List Char)) (img : ImgTag) :
    add_img base images img = images ∨
    ∃ u, add_img base images img = images ++ [u] ∧ u ∉ images ∧
      leadsWith httpPat u = true := by
  unfold add_img
  by_cases h0 : ((img_raw_url img).isEmpty || leadsWith dataImgPat (img_raw_url img) ||
      leadsWith jsPat (img_raw_url img)) = true
  · left
    simp [h0]
  · rw [Bool.not_eq_true] at h0
    simp only [h0, Bool.false_eq_true, if_false]
    set u := if leadsWith ['/'] (img_raw_url img) then base ++ img_raw_url img
      else if !(leadsWith httpPat (img_raw_url img) || leadsWith httpsPat (img_raw_url img)) then
        base ++ '/' :: img_raw_url img
      else img_raw_url img with hu
    by_cases hc : u ∉ images ∧ (leadsWith httpPat u = true ∨ leadsWith httpsPat u = true)
    · right
      refine ⟨u, by simp [hc], hc.1, ?_⟩
      rcases hc.2 with h | h
      · exact h
      · exact leadsWith_https_http u h
    · left
      simp [hc]

theorem foldl_add_img_inv (base : List Char) (imgs : List ImgTag)
    (acc : List (List Char)) (hnd : acc.Nodup)
    (hall : ∀ u ∈ acc, leadsWith httpPat u = true) :
    (imgs.foldl (add_img base) acc).Nodup ∧
      ∀ u ∈ imgs.foldl (add_img base) acc, leadsWith httpPat u = true := by
  induction imgs generalizing acc with
  | nil => exact ⟨hnd, hall⟩
  | cons i is ih =>
    rw [List.foldl_cons]
    rcases add_img_cases base acc i with hcase | ⟨u, hequ, hnotmem, hhttp⟩
    · rw [hcase]
      exact ih acc hnd hall
    · rw [hequ]
      apply ih
      · exact List.nodup_append.mpr ⟨hnd, List.nodup_singleton u, by
          intro a ha hb
          rw [List.mem_singleton.mp hb] at ha
          exact hnotmem ha⟩
      · intro v hv
        rcases List.mem_append.mp hv with hv1 | hv2
        · exact hall v hv1
        · rw [List.mem_singleton.mp hv2]
          exact hhttp

/-- C9: for every fetched page, the image list `get_post_status` returns has
at most `MAX_IMAGES_PER_MSG = 10` entries, its URLs are pairwise distinct,
and every one of them starts with `http`. -/
theorem get_post_status_images_inv (url : List Char) (page : Page) :
    (get_post_status url page).1.length ≤ MAX_IMAGES_PER_MSG ∧
    (get_post_status url page).1.Nodup ∧
    ∀ u ∈ (get_post_status url page).1, leadsWith httpPat u = true := by
  unfold get_post_status
  by_cases h1 : page.statusCode ≠ 200
  · simp [h1]
  · by_cases h2 : page_matches_audit page = true
    · simp [h1, h2]
    · rw [Bool.not_eq_true] at h2
      simp only [h1, h2, Bool.false_eq_true, if_false]
      set divs := if page.firstDivImgs.isEmpty then page.allDivImgs else page.firstDivImgs
        with hdivs
      by_cases h3 : divs.isEmpty = true
      · simp [h3]
      · rw [Bool.not_eq_true] at h3
        simp only [h3, Bool.false_eq_true, if_false]
        have hinv := foldl_add_img_inv (base_domain_of url) divs.flatten []
          List.nodup_nil (by intro u hu; cases hu)
        refine ⟨List.length_take_le _ _, ?_, ?_⟩
        · exact List.Nodup.sublist (List.take_sublist _ _) hinv.1
        · intro u hu
          exact hinv.2 u (List.mem_of_mem_take hu)

/-- Witness for C9: the theorem applied to a concrete page. -/
theorem get_post_status_images_inv_witness :
    (get_post_status "https://tyw29.cc/thread-1.htm".toList c9Page).1.length ≤
      MAX_IMAGES_PER_MSG ∧
    (get_post_status "https://tyw29.cc/thread-1.htm".toList c9Page).1.Nodup ∧
    ∀ u ∈ (get_post_status "https://tyw29.cc/thread-1.htm".toList c9Page).1,
      leadsWith httpPat u = true :=
  get_post_status_images_inv "https://tyw29.cc/thread-1.htm".toList c9Page

/-- C7: for a fetched page (status 200) whose text matches the
moderation-banner pattern, `get_post_status` reports pending with an empty
image list before any image extraction; dually, whenever the returned image
list is non-empty the pending flag is false, i.e. images are extracted only
for non-pending pages. -/
theorem get_post_status_pending_spec (url : List Char) (page : Page)
    (h200 : page.statusCode = 200) :
    (page_matches_audit page = true → get_post_status url page = ([], true, 200)) ∧
    ((get_post_status url page).1 ≠ [] → (get_post_status url page).2.1 = false) := by
  have hne : ¬ (page.statusCode ≠ 200) := by rw [h200]; exact fun h => h rfl
  constructor
  · intro hb
    unfold get_post_status
    simp [hne, hb, h200]
  · intro himg
    by_cases hb : page_matches_audit page = true
    · exfalso
      apply himg
      unfold get_post_status
      simp [hne, hb]
    · rw [Bool.not_eq_true] at hb
      unfold get_post_status
      simp only [hne, hb, Bool.false_eq_true, if_false]
      split <;> first
      | rfl
      | split <;> rfl

/-- Witness for C7: the theorem applied to a concrete pending page. -/
theorem get_post_status_pending_spec_witness :
    get_post_status [] c7Page = ([], true, 200) :=
  (get_post_status_pending_spec [] c7Page rfl).1 (by decide)

/-- C4: the dispatcher chooses single-image delivery iff the image count is
exactly 1, multi-image delivery iff the count is between 2 and 10, and
text-only delivery otherwise (count 0 or above 10); and `send_media_group`
refuses (returns without posting) every list of fewer than 2 or more than 10
images. -/
theorem dispatch_spec (images : List (List Char)) (datas : List (List Nat))
    (postOk : Bool) :
    (dispatch images = SendMethod.sendPhoto ↔ images.length = 1) ∧
    (dispatch images = SendMethod.sendMediaGroup ↔
      (2 ≤ images.length ∧ images.length ≤ MAX_IMAGES_PER_MSG)) ∧
    (dispatch images = SendMethod.sendMessage ↔
      (images.length = 0 ∨ MAX_IMAGES_PER_MSG < images.length)) ∧
    ((datas.length < 2 ∨ datas.length > MAX_IMAGES_PER_MSG) →
      send_media_group datas postOk = (false, false)) := by
  refine ⟨?_, ?_, ?_, ?_⟩
  · by_cases h1 : images.length = 1
    · simp [dispatch, h1]
    · by_cases h2 : 2 ≤ images.length ∧ images.length ≤ MAX_IMAGES_PER_MSG
      · simp [dispatch, h1, h2]
      · simp [dispatch, h1, h2]
  · by_cases h1 : images.length = 1
    · simp only [dispatch, h1, if_true]
      constructor
      · intro h
        cases h
      · intro h
        rw [MAX_IMAGES_PER_MSG] at h
        omega
    · by_cases h2 : 2 ≤ images.length ∧ images.length ≤ MAX_IMAGES_PER_MSG
      · simp [dispatch, h1, h2]
      · simp [dispatch, h1, h2]
  · by_cases h1 : images.length = 1
    · simp only [dispatch, h1, if_true]
      constructor
      · intro h
        cases h
      · intro h
        rw [MAX_IMAGES_PER_MSG] at h
        omega
    · by_cases h2 : 2 ≤ images.length ∧ images.length ≤ MAX_IMAGES_PER_MSG
      · simp only [dispatch, h1, h2, if_true, if_false]
        constructor
        · intro h
          cases h
        · intro h
          rw [MAX_IMAGES_PER_MSG] at h2 h
          exfalso
          omega
      · simp only [dispatch, h1, h2, if_false]
        rw [MAX_IMAGES_PER_MSG] at h2 ⊢
        simp only [true_iff]
        omega
  · intro h
    unfold send_media_group
    rw [if_pos h]

/-- Witness for C4: `send_media_group` on a single downloaded image refuses
to post. -/
theorem dispatch_spec_witness :
    send_media_group [[0xff, 0xd8, 0xff]] false = (false, false) :=
  (dispatch_spec [] [[0xff, 0xd8, 0xff]] false).2.2.2 (by decide)

/-- C8: `is_valid_image` accepts exactly the non-empty byte strings starting
with one of the four magic-byte signatures (JPEG, PNG, GIF, RIFF/webp), and
an invalid downloaded image makes `send_single_photo`, and `send_media_group`
for any list containing it, return `False` without posting anything. -/
theorem is_valid_image_spec (data : List Nat) (datas : List (List Nat))
    (postOk : Bool) (d : List Nat) :
    (is_valid_image data = true ↔ (data ≠ [] ∧
      (leadsWith sigJPEG data = true ∨ leadsWith sigPNG data = true ∨
       leadsWith sigGIF data = true ∨ leadsWith sigRIFF data = true))) ∧
    (is_valid_image data = false → send_single_photo data postOk = (false, false)) ∧
    (d ∈ datas → is_valid_image d = false →
      send_media_group datas postOk = (false, false)) := by
  refine ⟨?_, ?_, ?_⟩
  · unfold is_valid_image
    by_cases he : data.isEmpty = true
    · rw [List.isEmpty_iff] at he
      simp [he]
    · rw [Bool.not_eq_true] at he
      have hne : data ≠ [] := by
        intro hnil
        rw [hnil] at he
        cases he
      simp [he, hne, Bool.or_eq_true, or_assoc]
  · intro h
    unfold send_single_photo
    rw [if_pos h]
  · intro hd hv
    unfold send_media_group
    by_cases hlen : datas.length < 2 ∨ datas.length > MAX_IMAGES_PER_MSG
    · rw [if_pos hlen]
    · rw [if_neg hlen]
      have hall : ¬ (datas.all is_valid_image = true) := by
        intro hall
        rw [List.all_eq_true.mp hall d hd] at hv
        cases hv
      rw [Bool.not_eq_true] at hall
      simp [hall]

/-- Witness for C8: a two-element list containing an invalid image makes
`send_media_group` refuse without posting. -/
theorem is_valid_image_spec_witness :
    send_media_group [[0], [0]] true = (false, false) :=
  (is_valid_image_spec [] [[0], [0]] true [0]).2.2 (by decide) (by decide)

theorem check_pending_loop_passed (pageOf : Nat → Page) (sendOf : Nat → SendOracle)
    (pending : List PendingItem) (t : Nat) :
    t ∈ (check_pending_loop pageOf sendOf pending).1 ↔
      ∃ it, it ∈ pending ∧ it.tid = t ∧
        pending_branch pageOf sendOf it.tid = PendingBranch.sentOut := by
  induction pending with
  | nil => simp [check_pending_loop]
  | cons item rest ih =>
    cases hb : pending_branch pageOf sendOf item.tid with
    | dropped =>
      simp only [check_pending_loop, hb, List.mem_cons]
      rw [ih]
      constructor
      · rintro ⟨it, hit, h1, h2⟩
        exact ⟨it, Or.inr hit, h1, h2⟩
      · rintro ⟨it, hit, h1, h2⟩
        rcases hit with heq | hmem
        · rw [heq] at h2
          rw [hb] at h2
          cases h2
        · exact ⟨it, hmem, h1, h2⟩
    | sentOut =>
      simp only [check_pending_loop, hb, List.mem_cons]
      rw [ih]
      constructor
      · rintro (heq | ⟨it, hit, h1, h2⟩)
        · exact ⟨item, Or.inl rfl, heq.symm, hb⟩
        · exact ⟨it, Or.inr hit, h1, h2⟩
      · rintro ⟨it, hit, h1, h2⟩
        rcases hit with heq | hmem
        · rw [heq] at h1
          exact Or.inl h1.symm
        · exact Or.inr ⟨it, hmem, h1, h2⟩
    | retained =>
      simp only [check_pending_loop, hb, List.mem_cons]
      rw [ih]
      constructor
      · rintro ⟨it, hit, h1, h2⟩
        exact ⟨it, Or.inr hit, h1, h2⟩
      · rintro ⟨it, hit, h1, h2⟩
        rcases hit with heq | hmem
        · rw [heq] at h2
          rw [hb] at h2
          cases h2
        · exact ⟨it, hmem, h1, h2⟩

theorem check_pending_loop_deleted (pageOf : Nat → Page) (sendOf : Nat → SendOracle)
    (pending : List PendingItem) (t : Nat) :
    t ∈ (check_pending_loop pageOf sendOf pending).2.2 ↔
      ∃ it, it ∈ pending ∧ it.tid = t ∧
        pending_branch pageOf sendOf it.tid = PendingBranch.dropped := by
  induction pending with
  | nil => simp [check_pending_loop]
  | cons item rest ih =>
    cases hb : pending_branch pageOf sendOf item.tid with
    | dropped =>
      simp only [check_pending_loop, hb, List.mem_cons]
      rw [ih]
      constructor
      · rintro (heq | ⟨it, hit, h1, h2⟩)
        · exact ⟨item, Or.inl rfl, heq.symm, hb⟩
        · exact ⟨it, Or.inr hit, h1, h2⟩
      · rintro ⟨it, hit, h1, h2⟩
        rcases hit with heq | hmem
        · rw [heq] at h1
          exact Or.inl h1.symm
        · exact Or.inr ⟨it, hmem, h1, h2⟩
    | sentOut =>
      simp only [check_pending_loop, hb, List.mem_cons]
      rw [ih]
      constructor
      · rintro ⟨it, hit, h1, h2⟩
        exact ⟨it, Or.inr hit, h1, h2⟩
      · rintro ⟨it, hit, h1, h2⟩
        rcases hit with heq | hmem
        · rw [heq] at h2
          rw [hb] at h2
          cases h2
        · exact ⟨it, hmem, h1, h2⟩
    | retained =>
      simp only [check_pending_loop, hb, List.mem_cons]
      rw [ih]
      constructor
      · rintro ⟨it, hit, h1, h2⟩
        exact ⟨it, Or.inr hit, h1, h2⟩
      · rintro ⟨it, hit, h1, h2⟩
        rcases hit with heq | hmem
        · rw [heq] at h2
          rw [hb] at h2
          cases h2
        · exact ⟨it, hmem, h1, h2⟩

theorem check_pending_loop_still (pageOf : Nat → Page) (sendOf : Nat → SendOracle)
    (pending : List PendingItem) (x : PendingItem) :
    x ∈ (check_pending_loop pageOf sendOf pending).2.1 ↔
      x ∈ pending ∧ pending_branch pageOf sendOf x.tid = PendingBranch.retained := by
  induction pending with
  | nil => simp [check_pending_loop]
  | cons item rest ih =>
    cases hb : pending_branch pageOf sendOf item.tid with
    | dropped =>
      simp only [check_pending_loop, hb, List.mem_cons]
      rw [ih]
      constructor
      · rintro ⟨hmem, h2⟩
        exact ⟨Or.inr hmem, h2⟩
      · rintro ⟨hor, h2⟩
        rcases hor with heq | hmem
        · rw [heq] at h2
          rw [hb] at h2
          cases h2
        · exact ⟨hmem, h2⟩
    | sentOut =>
      simp only [check_pending_loop, hb, List.mem_cons]
      rw [ih]
      constructor
      · rintro ⟨hmem, h2⟩
        exact ⟨Or.inr hmem, h2⟩
      · rintro ⟨hor, h2⟩
        rcases hor with heq | hmem
        · rw [heq] at h2
          rw [hb] at h2
          cases h2
        · exact ⟨hmem, h2⟩
    | retained =>
      simp only [check_pending_loop, hb, List.mem_cons]
      rw [ih]
      constructor
      · rintro (heq | ⟨hmem, h2⟩)
        · refine ⟨Or.inl heq, ?_⟩
          rw [heq]
          exact hb
        · exact ⟨Or.inr hmem, h2⟩
      · rintro ⟨hor, h2⟩
        rcases hor with heq | hmem
        · exact Or.inl heq
        · exact Or.inr ⟨hmem, h2⟩

theorem pending_branch_iffs (pageOf : Nat → Page) (sendOf : Nat → SendOracle)
    (tid : Nat) :
    (pending_branch pageOf sendOf tid = PendingBranch.dropped ↔
      (pending_status pageOf tid).2.2 = 404) ∧
    (pending_branch pageOf sendOf tid = PendingBranch.sentOut ↔
      ((pending_status pageOf tid).2.2 = 200 ∧ (pending_status pageOf tid).2.1 = false ∧
        run_send (pending_status pageOf tid).1 (sendOf tid) = true)) ∧
    (pending_branch pageOf sendOf tid = PendingBranch.retained ↔
      (¬ ((pending_status pageOf tid).2.2 = 404) ∧
       ¬ ((pending_status pageOf tid).2.2 = 200 ∧
          (pending_status pageOf tid).2.1 = false ∧
          run_send (pending_status pageOf tid).1 (sendOf tid) = true))) := by
  unfold pending_branch
  by_cases h404 : (pending_status pageOf tid).2.2 = 404
  · simp [h404]
  · by_cases h200 : (pending_status pageOf tid).2.2 = 200
    · by_cases hflag : (pending_status pageOf tid).2.1 = true
      · simp [h404, h200, hflag]
      · rw [Bool.not_eq_true] at hflag
        by_cases hsend : run_send (pending_status pageOf tid).1 (sendOf tid) = true
        · simp [h404, h200, hflag, hsend]
        · rw [Bool.not_eq_true] at hsend
          simp [h404, h200, hflag, hsend]
    · simp [h404, h200]

theorem check_pending_data_eq (pageOf : Nat → Page) (sendOf : Nat → SendOracle)
    (pending : List PendingItem) (sent0 : List Nat) (h : pending ≠ []) :
    check_pending_data pageOf sendOf pending sent0 =
      ⟨(check_pending_loop pageOf sendOf pending).1,
       (check_pending_loop pageOf sendOf pending).2.1,
       (check_pending_loop pageOf sendOf pending).2.2,
       if (check_pending_loop pageOf sendOf pending).1.isEmpty then sent0
       else save_sent_tids (check_pending_loop pageOf sendOf pending).1
         (sent0 ++ (check_pending_loop pageOf sendOf pending).1)⟩ := by
  have hne : pending.isEmpty = false := by simp [List.isEmpty_iff, h]
  unfold check_pending_data
  simp only [hne, Bool.false_eq_true, if_false]

/-- C3: every pending entry processed by `check_pending_data` ends the run
in exactly one of three places — dropped (recorded among the deleted TIDs)
when the page fetch returned status 404; appended to the sent-set (its TID
among the passed TIDs and in the saved sent file) when the page came back
200, is no longer pending and the forward succeeded; and retained in the
saved pending list in every other case (non-200 status, still-pending page,
failed send).  In each case the entry is in none of the other two places. -/
theorem check_pending_data_trichotomy (pageOf : Nat → Page)
    (sendOf : Nat → SendOracle) (pending : List PendingItem) (sent0 : List Nat)
    (item : PendingItem) (hmem : item ∈ pending) :
    ((pending_status pageOf item.tid).2.2 = 404 →
      item.tid ∈ (check_pending_data pageOf sendOf pending sent0).deleted ∧
      item ∉ (check_pending_data pageOf sendOf pending sent0).still ∧
      item.tid ∉ (check_pending_data pageOf sendOf pending sent0).passed) ∧
    (((pending_status pageOf item.tid).2.2 = 200 ∧
      (pending_status pageOf item.tid).2.1 = false ∧
      run_send (pending_status pageOf item.tid).1 (sendOf item.tid) = true) →
      item.tid ∈ (check_pending_data pageOf sendOf pending sent0).passed ∧
      item.tid ∈ (check_pending_data pageOf sendOf pending sent0).sentFile ∧
      item ∉ (check_pending_data pageOf sendOf pending sent0).still ∧
      item.tid ∉ (check_pending_data pageOf sendOf pending sent0).deleted) ∧
    ((¬ ((pending_status pageOf item.tid).2.2 = 404) ∧
      ¬ ((pending_status pageOf item.tid).2.2 = 200 ∧
         (pending_status pageOf item.tid).2.1 = false ∧
         run_send (pending_status pageOf item.tid).1 (sendOf item.tid) = true)) →
      item ∈ (check_pending_data pageOf sendOf pending sent0).still ∧
      item.tid ∉ (check_pending_data pageOf sendOf pending sent0).passed ∧
      item.tid ∉ (check_pending_data pageOf sendOf pending sent0).deleted) := by
  have hne : pending ≠ [] := List.ne_nil_of_mem hmem
  rw [check_pending_data_eq pageOf sendOf pending sent0 hne]
  obtain ⟨hbd, hbs, hbr⟩ := pending_branch_iffs pageOf sendOf item.tid
  refine ⟨?_, ?_, ?_⟩
  · intro h404
    have hb : pending_branch pageOf sendOf item.tid = PendingBranch.dropped :=
      hbd.mpr h404
    refine ⟨?_, ?_, ?_⟩
    · exact (check_pending_loop_deleted pageOf sendOf pending item.tid).mpr
        ⟨item, hmem, rfl, hb⟩
    · intro hstill
      have hs := (check_pending_loop_still pageOf sendOf pending item).mp hstill
      have h2 := hs.2
      rw [hb] at h2
      cases h2
    · intro hpass
      obtain ⟨it, _, hitid, hbit⟩ :=
        (check_pending_loop_passed pageOf sendOf pending item.tid).mp hpass
      rw [hitid] at hbit
      rw [hb] at hbit
      cases hbit
  · intro hcond
    have hb : pending_branch pageOf sendOf item.tid = PendingBranch.sentOut :=
      hbs.mpr hcond
    have hp : item.tid ∈ (check_pending_loop pageOf sendOf pending).1 :=
      (check_pending_loop_passed pageOf sendOf pending item.tid).mpr
        ⟨item, hmem, rfl, hb⟩
    refine ⟨hp, ?_, ?_, ?_⟩
    · have hpe : (check_pending_loop pageOf sendOf pending).1.isEmpty = false := by
        simp [List.isEmpty_iff, List.ne_nil_of_mem hp]
      show item.tid ∈
        (if (check_pending_loop pageOf sendOf pending).1.isEmpty then sent0
         else save_sent_tids (check_pending_loop pageOf sendOf pending).1
           (sent0 ++ (check_pending_loop pageOf sendOf pending).1))
      simp only [hpe, Bool.false_eq_true, if_false]
      exact (mem_save_sent_tids _ _ _).mpr (Or.inr hp)
    · intro hstill
      have hs := (check_pending_loop_still pageOf sendOf pending item).mp hstill
      have h2 := hs.2
      rw [hb] at h2
      cases h2
    · intro hdel
      obtain ⟨it, _, hitid, hbit⟩ :=
        (check_pending_loop_deleted pageOf sendOf pending item.tid).mp hdel
      rw [hitid] at hbit
      rw [hb] at hbit
      cases hbit
  · intro hcond
    have hb : pending_branch pageOf sendOf item.tid = PendingBranch.retained :=
      hbr.mpr hcond
    refine ⟨?_, ?_, ?_⟩
    · exact (check_pending_loop_still pageOf sendOf pending item).mpr ⟨hmem, hb⟩
    · intro hpass
      obtain ⟨it, _, hitid, hbit⟩ :=
        (check_pending_loop_passed pageOf sendOf pending item.tid).mp hpass
      rw [hitid] at hbit
      rw [hb] at hbit
      cases hbit
    · intro hdel
      obtain ⟨it, _, hitid, hbit⟩ :=
        (check_pending_loop_deleted pageOf sendOf pending item.tid).mp hdel
      rw [hitid] at hbit
      rw [hb] at hbit
      cases hbit

/-- Witness for C3: the theorem applied to a concrete run whose only pending
entry gets a 404 and is dropped. -/
theorem check_pending_data_trichotomy_witness :
    c3Item.tid ∈ (check_pending_data c3PageOf c3SendOf [c3Item] []).deleted ∧
    c3Item ∉ (check_pending_data c3PageOf c3SendOf [c3Item] []).still ∧
    c3Item.tid ∉ (check_pending_data c3PageOf c3SendOf [c3Item] []).passed :=
  (check_pending_data_trichotomy c3PageOf c3SendOf [c3Item] [] c3Item
    (by decide)).1 (by decide)
